import Mathlib

/-!
Verification development for the hyperlink URL library
(`hyperlink/_url.py`, `hyperlink/_url_codecs.py`).

The Python code is shallowly embedded: text is `List Char`, machine
integers are `Int`/`Nat`, fallible code returns `Except Err`.  Each
definition mirrors the corresponding Python function; external
collaborators of the repository (the `socket` address parsers, Python's
`int()` conversion, the IDNA codec, NFC normalization) are modelled with
doc comments stating the modelled contract and its restrictions.
-/

set_option maxRecDepth 10000

namespace Hyperlink

/-- Text is modelled as a list of Unicode scalar values. -/
abbrev Str := List Char

/-- Convert a Lean string literal to the text representation. -/
def str (s : String) : Str := s.data

/-- Split text on every occurrence of a separator character, like
Python `s.split(sep)` for a one-character separator: `n` occurrences
of the separator give `n+1` (possibly empty) parts. -/
def splitAll (sep : Char) : Str → List Str
  | [] => [[]]
  | c :: rest =>
    let parts := splitAll sep rest
    if c = sep then [] :: parts
    else match parts with
      | [] => [[c]]
      | p :: ps => (c :: p) :: ps

/-- Python `s.split(sep, 1)`: split at the first occurrence only. -/
def splitFirst (sep : Char) : Str → List Str
  | [] => [[]]
  | c :: rest =>
    if c = sep then [[], rest]
    else match splitFirst sep rest with
      | [] => [[c]]
      | p :: ps => (c :: p) :: ps

/-- Python `s.partition(sep)` for a one-character separator: returns
the part before the first occurrence, whether the separator was found,
and the part after it. -/
def partitionC (sep : Char) : Str → Str × Bool × Str
  | [] => ([], false, [])
  | c :: rest =>
    if c = sep then ([], true, rest)
    else
      let (pre, found, post) := partitionC sep rest
      (c :: pre, found, post)

/-- Python `s.rpartition(sep)` restricted to the two components used by
the code: the part before the last occurrence (empty when the separator
is absent) and the part after it (the whole text when absent). -/
def rpartitionC (sep : Char) (s : Str) : Str × Str :=
  if sep ∈ s then
    let (post, _, pre) := partitionC sep s.reverse
    (pre.reverse, post.reverse)
  else ([], s)

/-- Python `sep.join(parts)` for a one-character separator. -/
def joinC (sep : Char) : List Str → Str
  | [] => []
  | [p] => p
  | p :: ps => p ++ sep :: joinC sep ps

/-- `resolve_dot_segments` from `hyperlink/_url.py`: the accumulating
loop.  A `"."` segment is skipped, a `".."` pops the last kept segment
when one exists, anything else is kept. -/
def resolveLoop (segs : List Str) : List Str → List Str
  | [] => segs
  | seg :: rest =>
    if seg = str "." then resolveLoop segs rest
    else if seg = str ".." then resolveLoop segs.dropLast rest
    else resolveLoop (segs ++ [seg]) rest

/-- `resolve_dot_segments(path)` from `hyperlink/_url.py`: run the loop
from the empty stack, then append a trailing empty segment when the
input ended in `"."` or `".."`. -/
def resolve_dot_segments (path : List Str) : List Str :=
  let segs := resolveLoop [] path
  if path.getLast? = some (str ".") ∨ path.getLast? = some (str "..") then
    segs ++ [[]]
  else segs

/-- Dot-segment resolution as worded by the spec (§4.5): a single
left-to-right fold in which `"."` is dropped, `".."` drops the last
kept segment (silently doing nothing on an empty stack), other segments
are appended; a trailing empty segment is added exactly when the last
element of the original input was `"."` or `".."`. -/
def resolveSpec (path : List Str) : List Str :=
  let kept := path.foldl
    (fun acc seg =>
      if seg = str "." then acc
      else if seg = str ".." then acc.dropLast
      else acc ++ [seg]) []
  if path.getLast? = some (str ".") ∨ path.getLast? = some (str "..") then
    kept ++ [[]]
  else kept

/-- ASCII test used throughout: Python `text.encode("ascii")` succeeds
exactly when every scalar value is below 128. -/
def isAsciiC (c : Char) : Bool := c.toNat < 128

/-- Python whitespace characters stripped by `int()` (ASCII fragment). -/
def pyWs (c : Char) : Bool :=
  c = ' ' || c = '\t' || c = '\n' || c = '\x0d' || c = '\x0b' || c = '\x0c'

/-- Strip leading and trailing whitespace. -/
def stripWs (s : Str) : Str :=
  ((s.dropWhile pyWs).reverse.dropWhile pyWs).reverse

/-- Digit-group tail of a Python integer literal: decimal digits with
single underscores allowed between digits. -/
def pyDigitsGo (acc : Nat) : Str → Option Nat
  | [] => some acc
  | '_' :: c :: rest =>
    if c.isDigit then pyDigitsGo (acc * 10 + (c.toNat - 48)) rest else none
  | c :: rest =>
    if c.isDigit then pyDigitsGo (acc * 10 + (c.toNat - 48)) rest else none

/-- Nonempty digit group, leading digit required. -/
def pyDigits : Str → Option Nat
  | [] => none
  | c :: rest =>
    if c.isDigit then pyDigitsGo (c.toNat - 48) rest else none

/-- Modelled: Python's `int(text)` conversion, an external collaborator.
The model covers ASCII text: optional surrounding whitespace, an
optional sign, then decimal digits with single internal underscores.
Non-ASCII (Unicode digit) forms are outside the model.  Returns `none`
where Python raises `ValueError`. -/
def pyInt? (s : Str) : Option Int :=
  match stripWs s with
  | '+' :: rest => (pyDigits rest).map Int.ofNat
  | '-' :: rest => (pyDigits rest).map fun n => -(n : Int)
  | t => (pyDigits t).map Int.ofNat

/-- Hex value of a byte interpreted as an ASCII character, if any. -/
def hexValByte (b : Nat) : Option Nat :=
  if 48 ≤ b ∧ b ≤ 57 then some (b - 48)
  else if 65 ≤ b ∧ b ≤ 70 then some (b - 55)
  else if 97 ≤ b ∧ b ≤ 102 then some (b - 87)
  else none

/-- `urllib.parse.unquote_to_bytes`: replace each `%XX` hex escape with
the byte it denotes; a `%` not followed by two hex digits is kept
literally. -/
def urlunquote : List Nat → List Nat
  | 37 :: h1 :: h2 :: rest =>
    match hexValByte h1, hexValByte h2 with
    | some x, some y => (16 * x + y) :: urlunquote rest
    | _, _ => 37 :: urlunquote (h1 :: h2 :: rest)
  | b :: rest => b :: urlunquote rest
  | [] => []

/-- Python `text.encode("ascii")`: the scalar values as bytes, or
`none` (`UnicodeEncodeError`) when a scalar is not ASCII. -/
def asciiEncode? (s : Str) : Option (List Nat) :=
  if s.all isAsciiC then some (s.map (·.toNat)) else none

/-- UTF-8 encoding of one scalar value (1–4 bytes). -/
def utf8EncodeChar (c : Char) : List Nat :=
  let n := c.toNat
  if n < 0x80 then [n]
  else if n < 0x800 then [0xC0 + n / 64, 0x80 + n % 64]
  else if n < 0x10000 then
    [0xE0 + n / 4096, 0x80 + (n / 64) % 64, 0x80 + n % 64]
  else
    [0xF0 + n / 262144, 0x80 + (n / 4096) % 64, 0x80 + (n / 64) % 64,
     0x80 + n % 64]

/-- UTF-8 encoding of text (Python `text.encode("utf8")`). -/
def utf8Encode (s : Str) : List Nat := (s.map utf8EncodeChar).flatten

/-- Continuation byte test for UTF-8 decoding. -/
def utf8Cont (b : Nat) : Bool := 0x80 ≤ b ∧ b < 0xC0

/-- Strict UTF-8 decoding (Python `bytes.decode("utf-8")`): rejects
truncated sequences, stray continuation bytes, overlong forms,
surrogate code points and values above `0x10FFFF`; `none` models
`UnicodeDecodeError`. -/
def utf8Decode : List Nat → Option Str
  | [] => some []
  | b :: rest =>
    if b < 0x80 then (utf8Decode rest).map (Char.ofNat b :: ·)
    else if b < 0xC2 then none
    else if b < 0xE0 then
      match rest with
      | b2 :: rest2 =>
        if utf8Cont b2 then
          (utf8Decode rest2).map (Char.ofNat ((b - 0xC0) * 64 + (b2 - 0x80)) :: ·)
        else none
      | _ => none
    else if b < 0xF0 then
      match rest with
      | b2 :: b3 :: rest2 =>
        if utf8Cont b2 && utf8Cont b3 && !(b = 0xE0 && b2 < 0xA0) &&
            !(b = 0xED && 0xA0 ≤ b2) then
          (utf8Decode rest2).map
            (Char.ofNat ((b - 0xE0) * 4096 + (b2 - 0x80) * 64 + (b3 - 0x80)) :: ·)
        else none
      | _ => none
    else if b < 0xF5 then
      match rest with
      | b2 :: b3 :: b4 :: rest2 =>
        if utf8Cont b2 && utf8Cont b3 && utf8Cont b4 &&
            !(b = 0xF0 && b2 < 0x90) && !(b = 0xF4 && 0x90 ≤ b2) then
          (utf8Decode rest2).map
            (Char.ofNat ((b - 0xF0) * 262144 + (b2 - 0x80) * 4096 +
              (b3 - 0x80) * 64 + (b4 - 0x80)) :: ·)
        else none
      | _ => none
    else none

/-- `_percent_decode` from `hyperlink/_url.py`: ASCII-encode the input
(returning it unchanged on failure), percent-unescape the bytes, decode
them as UTF-8, and return the original text unchanged when the UTF-8
decode fails. -/
def percent_decode (t : Str) : Str :=
  match asciiEncode? t with
  | none => t
  | some bs =>
    match utf8Decode (urlunquote bs) with
    | none => t
    | some r => r

/-- Modelled: `unicodedata.normalize("NFC", ·)`, an external
collaborator.  NFC is the identity on ASCII text, which is all the
maximal encoder's stability depends on; the model is the identity. -/
def nfc (t : Str) : Str := t

/-- The unreserved URI characters, RFC 3986 §2.3 (`_UNRESERVED_CHARS`). -/
def UNRESERVED : List Char :=
  "~-._0123456789ABCDEFGHIJKLMNOPQRSTUVWXYZabcdefghijklmnopqrstuvwxyz".data

/-- RFC 3986 §2.2 general delimiters (`_GEN_DELIMS`). -/
def GEN_DELIMS : List Char := ":/?#[]@".data

/-- RFC 3986 §2.2 sub-delimiters (`_SUB_DELIMS`). -/
def SUB_DELIMS : List Char :=
  ['!', '$', '&', '\'', '(', ')', '*', '+', ',', ';', '=']

/-- All delimiters (`_ALL_DELIMS`). -/
def ALL_DELIMS : List Char := GEN_DELIMS ++ SUB_DELIMS

/-- `_USERINFO_SAFE = _UNRESERVED_CHARS | _SUB_DELIMS`. -/
def USERINFO_SAFE : List Char := UNRESERVED ++ SUB_DELIMS

/-- `_PATH_SAFE = _UNRESERVED_CHARS | _SUB_DELIMS | set(":@%")`. -/
def PATH_SAFE : List Char := UNRESERVED ++ SUB_DELIMS ++ [':', '@', '%']

/-- `_FRAGMENT_SAFE = _UNRESERVED_CHARS | _PATH_SAFE | set("/?")`. -/
def FRAGMENT_SAFE : List Char := UNRESERVED ++ PATH_SAFE ++ ['/', '?']

/-- `_QUERY_SAFE = _UNRESERVED_CHARS | _FRAGMENT_SAFE - set("&=+")`
(Python set difference binds tighter than union). -/
def QUERY_SAFE : List Char :=
  UNRESERVED ++ FRAGMENT_SAFE.filter (fun c => !(['&', '=', '+'].contains c))

/-- `_USERINFO_DELIMS = _ALL_DELIMS - _USERINFO_SAFE`. -/
def USERINFO_DELIMS : List Char :=
  ALL_DELIMS.filter (fun c => !(USERINFO_SAFE.contains c))

/-- `_PATH_DELIMS = _ALL_DELIMS - _PATH_SAFE`. -/
def PATH_DELIMS : List Char :=
  ALL_DELIMS.filter (fun c => !(PATH_SAFE.contains c))

/-- `_QUERY_DELIMS = _ALL_DELIMS - _QUERY_SAFE`. -/
def QUERY_DELIMS : List Char :=
  ALL_DELIMS.filter (fun c => !(QUERY_SAFE.contains c))

/-- `_FRAGMENT_DELIMS = _ALL_DELIMS - _FRAGMENT_SAFE`. -/
def FRAGMENT_DELIMS : List Char :=
  ALL_DELIMS.filter (fun c => !(FRAGMENT_SAFE.contains c))

/-- Uppercase hex digit of a value below 16. -/
def hexUpper (n : Nat) : Char := "0123456789ABCDEF".data.getD n '0'

/-- One entry of `_make_quote_map(safe_chars)`: a safe byte stands for
itself, any other byte becomes an uppercase `%XX` escape. -/
def quoteByte (safe : List Char) (b : Nat) : Str :=
  let c := Char.ofNat b
  if safe.contains c then [c]
  else ['%', hexUpper (b / 16), hexUpper (b % 16)]

/-- Maximal (IRI-to-URI) encoding of one component: NFC-normalize,
UTF-8-encode, and quote every byte against the safe set. -/
def encodeMax (safe : List Char) (t : Str) : Str :=
  ((utf8Encode (nfc t)).map (quoteByte safe)).flatten

/-- Minimal (rendering) encoding of one component: only the reserved
delimiters of the component are quoted, all other characters pass
through unchanged. -/
def encodeMin (safe delims : List Char) (t : Str) : Str :=
  (t.map (fun c => if delims.contains c then quoteByte safe c.toNat else [c])).flatten

/-- Equality of `Except` results is decidable componentwise. -/
instance {ε α : Type} [DecidableEq ε] [DecidableEq α] :
    DecidableEq (Except ε α) := fun x y =>
  match x, y with
  | .ok a, .ok b =>
    if h : a = b then isTrue (by rw [h])
    else isFalse (by intro hc; exact h (Except.ok.inj hc))
  | .error a, .error b =>
    if h : a = b then isTrue (by rw [h])
    else isFalse (by intro hc; exact h (Except.error.inj hc))
  | .ok _, .error _ => isFalse (by intro hc; exact Except.noConfusion hc)
  | .error _, .ok _ => isFalse (by intro hc; exact Except.noConfusion hc)

/-- Host classification tag (`socket.AF_INET` / `socket.AF_INET6`);
`Option Family` plays the role of the Python field that may be `None`. -/
inductive Family where
  | v4
  | v6
deriving DecidableEq, Repr

/-- Failure modes of the embedded code.  `portEmptyErr`, `portNotInt`
and `invalidIPv6` are `URLParseError`s; `invalidScheme` is the
constructor's `ValueError`; `rootlessNotImplemented` is `click`'s
`NotImplementedError`; `idnaFail` is a `UnicodeError` from the host
codec. -/
inductive Err where
  | portEmptyErr
  | portNotInt (ps : Str)
  | invalidIPv6 (h : Str)
  | invalidScheme (s : Str)
  | rootlessNotImplemented
  | idnaFail (h : Str)
deriving DecidableEq, Repr

/-- The structural URL record: the ten attributes compared by
`URL.__eq__`. -/
structure URL where
  scheme : Str
  host : Str
  path : List Str
  query : List (Str × Option Str)
  fragment : Str
  port : Option Int
  rooted : Bool
  userinfo : Str
  family : Option Family
  uses_netloc : Option Bool
deriving DecidableEq, Repr

/-- `SCHEME_PORT_MAP` from `hyperlink/_url.py`: scheme name to default
port; a `none` value mirrors a key explicitly mapped to Python `None`. -/
def SCHEME_PORT_MAP : List (Str × Option Int) :=
  [(str "acap", some 674), (str "afp", some 548), (str "dict", some 2628),
   (str "dns", some 53), (str "file", none), (str "ftp", some 21),
   (str "git", some 9418), (str "gopher", some 70), (str "http", some 80),
   (str "https", some 443), (str "imap", some 143), (str "ipp", some 631),
   (str "ipps", some 631), (str "irc", some 194), (str "ircs", some 6697),
   (str "ldap", some 389), (str "ldaps", some 636), (str "mms", some 1755),
   (str "msrp", some 2855), (str "msrps", none), (str "mtqp", some 1038),
   (str "nfs", some 111), (str "nntp", some 119), (str "nntps", some 563),
   (str "pop", some 110), (str "prospero", some 1525), (str "redis", some 6379),
   (str "rsync", some 873), (str "rtsp", some 554), (str "rtsps", some 322),
   (str "rtspu", some 5005), (str "sftp", some 22), (str "smb", some 445),
   (str "snmp", some 161), (str "ssh", some 22), (str "steam", none),
   (str "svn", some 3690), (str "telnet", some 23), (str "ventrilo", some 3784),
   (str "vnc", some 5900), (str "wais", some 210), (str "ws", some 80),
   (str "wss", some 443), (str "xmpp", none)]

/-- `NO_NETLOC_SCHEMES` from `hyperlink/_url.py`. -/
def NO_NETLOC_SCHEMES : List Str :=
  [str "urn", str "about", str "bitcoin", str "blob", str "data", str "geo",
   str "magnet", str "mailto", str "news", str "pkcs11", str "sip",
   str "sips", str "tel"]

/-- Key membership in `SCHEME_PORT_MAP` (`scheme in SCHEME_PORT_MAP`). -/
def schemePortMem (s : Str) : Bool := (SCHEME_PORT_MAP.lookup s).isSome

/-- `SCHEME_PORT_MAP.get(scheme)`: `none` both for a missing key and
for a key mapped to `None`. -/
def schemePortGet (s : Str) : Option Int := (SCHEME_PORT_MAP.lookup s).join

/-- Modelled: Python `str.lower()` restricted to ASCII text (scheme
names here are ASCII). -/
def pyLower (s : Str) : Str :=
  s.map fun c => if 'A' ≤ c ∧ c ≤ 'Z' then Char.ofNat (c.toNat + 32) else c

/-- `scheme_uses_netloc(scheme, default)` from `hyperlink/_url.py`. -/
def scheme_uses_netloc (scheme : Str) (default : Option Bool) : Option Bool :=
  if scheme = [] then some false
  else
    let s := pyLower scheme
    if schemePortMem s then some true
    else if NO_NETLOC_SCHEMES.contains s then some false
    else if schemePortMem ((splitAll '+' s).getLastD []) then some true
    else default

/-- A character allowed by `_SCHEME_RE = ^[a-zA-Z0-9+-.]*$` (the `+-.`
range also admits the comma). -/
def schemeCharOK (c : Char) : Bool :=
  c.isAlpha || c.isDigit || ['+', ',', '-', '.'].contains c

/-- `if host is not None and scheme is None: scheme = "http"` — the
constructor's scheme fallback. -/
def effScheme (scheme host : Option Str) : Option Str :=
  if host ≠ none ∧ scheme = none then some (str "http") else scheme

/-- `if port is None: port = SCHEME_PORT_MAP.get(scheme)` — the
constructor's port default (`get(None)` is `None`). -/
def effPort (port : Option Int) (scheme : Option Str) : Option Int :=
  match port with
  | none =>
    match scheme with
    | none => none
    | some s => schemePortGet s
  | some p => some p

/-- `URL.__init__`: optional arguments are `Option`s whose `none`
mirrors passing Python `None` (or leaving the default).  Mirrors the
scheme fallback for hosts, the port default from the scheme registry,
the rootedness default, the scheme validation, and the
`scheme_uses_netloc` resolution. -/
def initURL (scheme host : Option Str) (path : List Str)
    (query : List (Str × Option Str)) (fragment : Str) (port : Option Int)
    (rooted : Option Bool) (userinfo : Str) (family : Option Family)
    (un : Option Bool) : Except Err URL :=
  let scheme := effScheme scheme host
  let port := effPort port scheme
  -- `if host and query and not path: path = ()` — kept for fidelity,
  -- although it rewrites an empty path to an empty path
  let path := if host.getD [] ≠ [] ∧ query ≠ [] ∧ path = [] then [] else path
  let schemeS := scheme.getD []
  let hostS := host.getD []
  let rootedB := rooted.getD (hostS ≠ [])
  if schemeS ≠ [] ∧ ¬ schemeS.all schemeCharOK then
    .error (.invalidScheme schemeS)
  else
    .ok ⟨schemeS, hostS, path, query, fragment, port, rootedB, userinfo,
      family, scheme_uses_netloc schemeS un⟩

/-- `URL.replace`: arguments left as `none` default to the current
values; `family` and `uses_netloc` are never forwarded, so the
constructor re-derives them. -/
def replaceURL (u : URL) (scheme host : Option Str) (path : Option (List Str))
    (query : Option (List (Str × Option Str))) (fragment : Option Str)
    (port : Option (Option Int)) (rooted : Option Bool)
    (userinfo : Option Str) : Except Err URL :=
  initURL (some (scheme.getD u.scheme)) (some (host.getD u.host))
    (path.getD u.path) (query.getD u.query) (fragment.getD u.fragment)
    (port.getD u.port) (some (rooted.getD u.rooted))
    (userinfo.getD u.userinfo) none none

/-- `URL.absolute`: both a scheme and a host are set. -/
def absolute (u : URL) : Bool := u.scheme ≠ [] && u.host ≠ []

/-- Decimal digits of a natural number. -/
def natDigits (n : Nat) : Str :=
  if h : n < 10 then [Char.ofNat (48 + n)]
  else natDigits (n / 10) ++ [Char.ofNat (48 + n % 10)]
decreasing_by exact Nat.div_lt_self (by omega) (by omega)

/-- Python `unicode(self.port)`: renders the integer, or the text
`"None"` when the port is absent. -/
def pyStrPort : Option Int → Str
  | none => str "None"
  | some n => if n < 0 then '-' :: natDigits n.natAbs else natDigits n.natAbs

/-- Everything up to and including the first colon
(`userinfo[:userinfo.index(":") + 1]`). -/
def upToFirstColon (s : Str) : Str := (partitionC ':' s).1 ++ [':']

/-- `URL.authority(include_secrets)`: brackets IPv6 hosts, renders the
port when it differs from the scheme's default, and elides everything
after the first colon of the userinfo unless secrets are included. -/
def authority (u : URL) (include_secrets : Bool) : Str :=
  let hostS := if u.family = some Family.v6 then '[' :: u.host ++ [']'] else u.host
  let hostport :=
    if u.port ≠ schemePortGet u.scheme then hostS ++ ':' :: pyStrPort u.port
    else hostS
  if u.userinfo ≠ [] then
    let ui :=
      if ¬ include_secrets ∧ ':' ∈ u.userinfo then upToFirstColon u.userinfo
      else u.userinfo
    ui ++ '@' :: hostport
  else hostport

/-- `URL.to_text(include_secrets)`. -/
def to_text (u : URL) (include_secrets : Bool) : Str :=
  let scheme := u.scheme
  let authorityS := authority u include_secrets
  let pathS := joinC '/'
    ((if u.rooted ∧ u.path ≠ [] then [([] : Str)] else []) ++
      u.path.map (encodeMin PATH_SAFE PATH_DELIMS))
  let queryS := joinC '&' (u.query.map fun kv =>
    joinC '=' (match kv.2 with
      | none => [encodeMin QUERY_SAFE QUERY_DELIMS kv.1]
      | some v => [encodeMin QUERY_SAFE QUERY_DELIMS kv.1,
                   encodeMin QUERY_SAFE QUERY_DELIMS v]))
  let fragment := u.fragment
  (if scheme ≠ [] then scheme ++ [':'] else []) ++
  (if authorityS ≠ [] then '/' :: '/' :: authorityS
   else if scheme ≠ [] ∧ pathS.take 2 ≠ str "//" ∧ u.uses_netloc = some true
   then str "//" else []) ++
  (if pathS ≠ [] then
    (if scheme ≠ [] ∧ authorityS ≠ [] ∧ pathS.take 1 ≠ str "/"
     then '/' :: pathS else pathS)
   else []) ++
  (if queryS ≠ [] then '?' :: queryS else []) ++
  (if fragment ≠ [] then '#' :: fragment else [])

/-- Modelled: the external IDNA host codec on the encoding side
(`host.encode("idna").decode("ascii")`).  The model covers ASCII
hostnames, on which Python's codec only checks the dot-separated labels
(each label must have length 1–63, except that a final empty label — a
trailing dot — is allowed) and is otherwise the identity; the empty
host encodes to itself.  Non-ASCII hosts (real punycode) are outside
the model and map to an encode failure. -/
def idnaEncode (h : Str) : Except Err Str :=
  if h = [] then .ok []
  else
    let ls := splitAll '.' h
    if h.all isAsciiC ∧ ls.dropLast.all (fun l => l ≠ [] ∧ l.length < 64) ∧
        (ls.getLastD []).length < 64 then
      .ok h
    else .error (.idnaFail h)

/-- Modelled: the external IDNA decode (`asciiHost.decode("idna")`),
the identity on ordinary ASCII hostnames; ACE (`xn--`) labels, whose
punycode decoding is outside the model, are likewise left unchanged. -/
def idnaDecode (h : Str) : Str := h

/-- `URL.to_uri()`: maximal-encode userinfo (colon-split once), path
segments, query pairs and fragment; IDNA-encode the host. -/
def to_uri (u : URL) : Except Err URL :=
  let new_userinfo :=
    joinC ':' ((splitFirst ':' u.userinfo).map (encodeMax USERINFO_SAFE))
  match idnaEncode u.host with
  | .error e => .error e
  | .ok hostA =>
    replaceURL u none (some hostA)
      (some (u.path.map (encodeMax PATH_SAFE)))
      (some (u.query.map fun kv =>
        (encodeMax QUERY_SAFE kv.1, kv.2.map (encodeMax QUERY_SAFE))))
      (some (encodeMax FRAGMENT_SAFE u.fragment))
      none none (some new_userinfo)

/-- `URL.to_iri()`: percent-decode userinfo (colon-split once), path
segments, query pairs and fragment; IDNA-decode an ASCII host, leaving
a non-ASCII host unchanged. -/
def to_iri (u : URL) : Except Err URL :=
  let new_userinfo := joinC ':' ((splitFirst ':' u.userinfo).map percent_decode)
  let textHost := if u.host.all isAsciiC then idnaDecode u.host else u.host
  replaceURL u none (some textHost)
    (some (u.path.map percent_decode))
    (some (u.query.map fun kv => (percent_decode kv.1, kv.2.map percent_decode)))
    (some (percent_decode u.fragment))
    none none (some new_userinfo)

/-- Decimal value of a digit string. -/
def decimalVal (p : Str) : Nat := p.foldl (fun a c => a * 10 + (c.toNat - 48)) 0

/-- Modelled: `socket.inet_pton(AF_INET, ·)`, an external collaborator.
Accepts exactly a dotted quad: four decimal parts separated by dots,
each 1–3 digits with no leading zero (except the digit `0` itself) and
value at most 255. -/
def inetPtonV4 (s : Str) : Bool :=
  let parts := splitAll '.' s
  parts.length = 4 && parts.all fun p =>
    p ≠ [] && p.length ≤ 3 && p.all Char.isDigit &&
    (p.length = 1 || p.head? ≠ some '0') && decimalVal p ≤ 255

/-- A hexadecimal digit. -/
def isHexDig (c : Char) : Bool :=
  c.isDigit || ('a' ≤ c ∧ c ≤ 'f') || ('A' ≤ c ∧ c ≤ 'F')

/-- A 16-bit IPv6 group: one to four hex digits. -/
def h16OK (p : Str) : Bool := p ≠ [] && p.length ≤ 4 && p.all isHexDig

/-- Number of 16-bit units denoted by a colon-separated group list,
where the final group may be an embedded dotted-quad IPv4 address
(worth two units); `none` when some group is malformed. -/
def v6Units (groups : List Str) : Option Nat :=
  match groups.getLast? with
  | none => some 0
  | some last =>
    if groups.dropLast.all h16OK then
      if h16OK last then some groups.length
      else if inetPtonV4 last then some (groups.length + 1)
      else none
    else none

/-- Split at the first `::`, if any. -/
def splitDoubleColon : Str → Option (Str × Str)
  | [] => none
  | ':' :: ':' :: rest => some ([], rest)
  | c :: rest => (splitDoubleColon rest).map fun lr => (c :: lr.1, lr.2)

/-- Modelled: `socket.inet_pton(AF_INET6, ·)`, an external
collaborator (glibc behaviour).  Accepts eight 16-bit hex groups, or a
single `::` compressing at least one zero group, with an optional
embedded dotted-quad IPv4 tail counting as two groups; rejects zone
suffixes, stray colons and over-long groups. -/
def inetPtonV6 (s : Str) : Bool :=
  match splitDoubleColon s with
  | some (l, r) =>
    let lg := if l = [] then [] else splitAll ':' l
    let rg := if r = [] then [] else splitAll ':' r
    lg.all h16OK &&
      (match v6Units rg with
       | some u => lg.length + u ≤ 7
       | none => false)
  | none =>
    match v6Units (splitAll ':' s) with
    | some u => u = 8
    | none => false

/-- `parse_host` from `hyperlink/_url.py`: classify a host as IPv4,
IPv6 (brackets required, and a colon must be present inside them) or an
opaque name; raise only for a malformed bracketed IPv6 literal.  (The
code's `UnicodeEncodeError` escape hatch concerns surrogate scalars,
which the embedding's text cannot contain.) -/
def parse_host (host : Option Str) : Except Err (Option Family × Str) :=
  match host with
  | none => .ok (none, [])
  | some h =>
    if h = [] then .ok (none, [])
    else if ':' ∈ h ∧ h.head? = some '[' ∧ h.getLast? = some ']' then
      let inner := (h.drop 1).dropLast
      if inetPtonV6 inner then .ok (some Family.v6, inner)
      else .error (.invalidIPv6 inner)
    else if inetPtonV4 h then .ok (some Family.v4, h)
    else .ok (none, h)

/-- The capture groups of `_URL_RE` (RFC 3986 Appendix B). -/
structure SplitParts where
  scheme : Option Str
  netlocSep : Bool
  authorityPart : Str
  pathPart : Str
  queryPart : Str
  fragmentPart : Str
deriving DecidableEq, Repr

/-- Deterministic equivalent of matching `_URL_RE`: an optional
`scheme:` (a nonempty run free of `:/?#` followed by a colon), an
optional `//authority` (authority runs to the next `/?#`), the path
(runs to the next `?#`), an optional `?query` (runs to the next `#`)
and an optional `#fragment` (the remainder). -/
def urlSplit (s : Str) : SplitParts :=
  let run := s.takeWhile fun c => !(c == ':' || c == '/' || c == '?' || c == '#')
  let (scheme, rest) :=
    if run ≠ [] ∧ (s.drop run.length).head? = some ':' then
      (some run, s.drop (run.length + 1))
    else ((none : Option Str), s)
  let (netlocSep, authorityPart, rest2) :=
    match rest with
    | '/' :: '/' :: r =>
      let au := r.takeWhile fun c => !(c == '/' || c == '?' || c == '#')
      (true, au, r.drop au.length)
    | _ => (false, [], rest)
  let pathPart := rest2.takeWhile fun c => !(c == '?' || c == '#')
  let rest3 := rest2.drop pathPart.length
  let (queryPart, rest4) :=
    match rest3 with
    | '?' :: r => (r.takeWhile (fun c => !(c == '#')), r.dropWhile (fun c => !(c == '#')))
    | _ => ([], rest3)
  let fragmentPart :=
    match rest4 with
    | '#' :: r => r
    | _ => []
  ⟨scheme, netlocSep, authorityPart, pathPart, queryPart, fragmentPart⟩

/-- The `(userinfo, hostinfo)` split of the authority at its last `@`
(`au_text.rpartition("@")`, applied only to a nonempty authority). -/
def userHostinfo (au : Str) : Str × Str :=
  if au ≠ [] then rpartitionC '@' au else ([], au)

/-- The host-info of an input text: the part of the authority after the
last `@`. -/
def hostinfoOf (s : Str) : Str := (userHostinfo (urlSplit s).authorityPart).2

/-- The host/port step of `URL.from_text`: split host-info at the first
colon; a `]` in the remainder means the split tore a bracketed IPv6
literal apart, so the whole host-info is the host; otherwise the
remainder is converted with Python `int` — an empty or non-integer port
is a parse error. -/
def hostPortOf (hostinfo : Str) : Except Err (Option Str × Option Int) :=
  if hostinfo ≠ [] then
    let hsp := partitionC ':' hostinfo
    if hsp.2.1 then
      if ']' ∈ hsp.2.2 then .ok (some hostinfo, none)
      else
        match pyInt? hsp.2.2 with
        | some n => .ok (some hsp.1, some n)
        | none =>
          if hsp.2.2 = [] then .error .portEmptyErr
          else .error (.portNotInt hsp.2.2)
    else .ok (some hostinfo, none)
  else .ok (none, none)

/-- The path step of `URL.from_text`: split on `/`; a leading empty
segment is consumed and recorded as rootedness. -/
def splitPathSegs (p : Str) : List Str × Bool :=
  match splitAll '/' p with
  | [] :: rest => (rest, true)
  | segs => (segs, false)

/-- The query step of `URL.from_text`: split on `&`, then each raw pair
at its first `=`; a pair without `=` has an absent value. -/
def splitQueryPairs (q : Str) : List (Str × Option Str) :=
  (splitAll '&' q).map fun qe =>
    if '=' ∈ qe then
      match splitFirst '=' qe with
      | [k, v] => (k, some v)
      | _ => (qe, (none : Option Str))
    else (qe, none)

/-- `URL.from_text`: split per the grammar, split the authority at the
last `@`, split host-info at the first colon (recovering a bracketed
IPv6 literal when a `]` lands in the port), convert the port with
Python `int` (empty and non-integer ports are parse errors), classify
the host, split path segments and query pairs, and hand everything to
the constructor. -/
def from_text (s : Str) : Except Err URL :=
  let g := urlSplit s
  let hostinfo := (userHostinfo g.authorityPart).2
  match hostPortOf hostinfo with
  | .error e => .error e
  | .ok hp =>
    match parse_host hp.1 with
    | .error e => .error e
    | .ok fh =>
      let scheme := g.scheme.getD []
      let pr :=
        if g.pathPart ≠ [] then splitPathSegs g.pathPart
        else (([] : List Str), decide (hostinfo ≠ []))
      let query :=
        if g.queryPart ≠ [] then splitQueryPairs g.queryPart else []
      initURL (some scheme) (some fh.2) pr.1 query g.fragmentPart hp.2
        (some pr.2) (userHostinfo g.authorityPart).1 fh.1 (some g.netlocSep)

/-- Python truthiness of the optional port (`clicked.port or
self.port`): `None` and `0` are falsy. -/
def portTruthy : Option Int → Bool
  | none => false
  | some n => n ≠ 0

/-- The relative branch of `URL.click`: refuse a scheme-carrying
rootless reference; otherwise merge paths per RFC 3986 §5.3, inherit
query/host/port/scheme from the base where the reference lacks them,
and resolve dot segments. -/
def clickRel (u clicked : URL) : Except Err URL :=
  let query := clicked.query
  if clicked.scheme ≠ [] ∧ ¬ clicked.rooted then
    .error .rootlessNotImplemented
  else
    let pq : List Str × List (Str × Option Str) :=
      if clicked.rooted then (clicked.path, query)
      else if clicked.path ≠ [] then (u.path.dropLast ++ clicked.path, query)
      else (u.path, if query = [] then u.query else query)
    replaceURL u
      (some (if clicked.scheme ≠ [] then clicked.scheme else u.scheme))
      (some (if clicked.host ≠ [] then clicked.host else u.host))
      (some (resolve_dot_segments pq.1))
      (some pq.2)
      (some clicked.fragment)
      (some (if portTruthy clicked.port then clicked.port else u.port))
      none none

/-- `URL.click(href)`: parse a nonempty `href` and return it unchanged
when absolute; otherwise resolve it relative to the base. -/
def click (u : URL) (href : Str) : Except Err URL :=
  let clickedE : Except Err URL := if href ≠ [] then from_text href else .ok u
  match clickedE with
  | .error e => .error e
  | .ok clicked =>
    if href ≠ [] ∧ absolute clicked then .ok clicked
    else clickRel u clicked

/-- Python list-slice assignment `q[idx:idx] = [x]` with a possibly
negative index: a negative index counts from the end (clamped at zero),
a nonnegative one is clamped at the length. -/
def pySliceInsert (q : List (Str × Option Str)) (idx : Int)
    (x : Str × Option Str) : List (Str × Option Str) :=
  let i : Nat := if idx < 0 then (idx + q.length).toNat else min idx.toNat q.length
  q.take i ++ [x] ++ q.drop i

/-- `URL.set(name, value)`: drop all pairs with the given name and
splice the new pair in at the index of the first occurrence in the
original query (`-1`, Python-style, when the name was absent). -/
def setQ (u : URL) (name : Str) (value : Option Str) : Except Err URL :=
  let q := u.query.filter fun kv => !(kv.1 == name)
  let idx : Int :=
    match u.query.findIdx? (fun kv => kv.1 == name) with
    | some i => (i : Int)
    | none => -1
  replaceURL u none none none (some (pySliceInsert q idx (name, value)))
    none none none none

/-- `URL.add(name, value)`: append one pair. -/
def addQ (u : URL) (name : Str) (value : Option Str) : Except Err URL :=
  replaceURL u none none none (some (u.query ++ [(name, value)]))
    none none none none

/-- `URL.get(name)`: all values for the name, in order. -/
def getQ (u : URL) (name : Str) : List (Option Str) :=
  u.query.filterMap fun kv => if kv.1 = name then some kv.2 else none

/-- `URL.remove(name)`: drop all pairs with the name. -/
def removeQ (u : URL) (name : Str) : Except Err URL :=
  replaceURL u none none none (some (u.query.filter fun kv => !(kv.1 == name)))
    none none none none

end Hyperlink

namespace Hyperlink

theorem resolveLoop_eq_foldl (path : List Str) (segs : List Str) :
    resolveLoop segs path = path.foldl
      (fun acc seg =>
        if seg = str "." then acc
        else if seg = str ".." then acc.dropLast
        else acc ++ [seg]) segs := by
  induction path generalizing segs with
  | nil => rfl
  | cons s rest ih =>
    by_cases h1 : s = str "."
    · simp only [resolveLoop, List.foldl_cons, if_pos h1]
      exact ih segs
    · by_cases h2 : s = str ".."
      · simp only [resolveLoop, List.foldl_cons, if_neg h1, if_pos h2]
        exact ih segs.dropLast
      · simp only [resolveLoop, List.foldl_cons, if_neg h1, if_neg h2]
        exact ih (segs ++ [s])

/-- Segments kept by the resolution loop never include `"."` or `".."`,
provided the starting stack has none. -/
theorem resolveLoop_no_dots (path : List Str) (segs : List Str)
    (h : ∀ s ∈ segs, s ≠ str "." ∧ s ≠ str "..") :
    ∀ s ∈ resolveLoop segs path, s ≠ str "." ∧ s ≠ str ".." := by
  induction path generalizing segs with
  | nil => exact h
  | cons t rest ih =>
    simp only [resolveLoop]
    by_cases h1 : t = str "."
    · simp only [h1, if_pos rfl]
      exact ih segs h
    · rw [if_neg h1]
      by_cases h2 : t = str ".."
      · rw [if_pos h2]
        refine ih segs.dropLast ?_
        intro s hs
        exact h s (List.dropLast_subset _ hs)
      · rw [if_neg h2]
        refine ih (segs ++ [t]) ?_
        intro s hs
        rcases List.mem_append.mp hs with hmem | hmem
        · exact h s hmem
        · rcases List.mem_singleton.mp hmem with rfl
          exact ⟨h1, h2⟩

/-- The output of `resolve_dot_segments` contains no `"."` or `".."`. -/
theorem resolve_dot_segments_no_dots (path : List Str) :
    ∀ s ∈ resolve_dot_segments path, s ≠ str "." ∧ s ≠ str ".." := by
  intro s hs
  unfold resolve_dot_segments at hs
  split at hs
  · rcases List.mem_append.mp hs with hmem | hmem
    · exact resolveLoop_no_dots path [] (by simp) s hmem
    · rcases List.mem_singleton.mp hmem with rfl
      refine ⟨?_, ?_⟩ <;> simp [str]
  · exact resolveLoop_no_dots path [] (by simp) s hs

end Hyperlink

namespace Hyperlink

/-- Characterization of a successful construction: every field of the
result in terms of the arguments. -/
theorem initURL_ok (scheme host : Option Str) (path : List Str)
    (query : List (Str × Option Str)) (fragment : Str) (port : Option Int)
    (rooted : Option Bool) (userinfo : Str) (family : Option Family)
    (un : Option Bool) (u : URL)
    (h : initURL scheme host path query fragment port rooted userinfo family un
      = .ok u) :
    u = ⟨(effScheme scheme host).getD [], host.getD [], path, query, fragment,
        effPort port (effScheme scheme host),
        rooted.getD (host.getD [] ≠ []), userinfo, family,
        scheme_uses_netloc ((effScheme scheme host).getD []) un⟩ := by
  have hp : (if host.getD [] ≠ [] ∧ query ≠ [] ∧ path = []
      then ([] : List Str) else path) = path := by
    split
    · next hc => exact hc.2.2.symm
    · rfl
  simp only [initURL, hp] at h
  split at h
  · exact absurd h (by simp)
  · exact (Except.ok.inj h).symm

/-- A successful construction accepts the scheme it returns. -/
theorem initURL_ok_schemeOK (scheme host : Option Str) (path : List Str)
    (query : List (Str × Option Str)) (fragment : Str) (port : Option Int)
    (rooted : Option Bool) (userinfo : Str) (family : Option Family)
    (un : Option Bool) (u : URL)
    (h : initURL scheme host path query fragment port rooted userinfo family un
      = .ok u) :
    ¬ ((effScheme scheme host).getD [] ≠ [] ∧
      ¬ ((effScheme scheme host).getD []).all schemeCharOK) := by
  simp only [initURL] at h
  split at h
  · exact absurd h (by simp)
  · next hc => exact hc

/-- Defaulting the port twice against the same scheme is the same as
defaulting it once. -/
theorem effPort_idem (p : Option Int) (s : Option Str) :
    effPort (effPort p s) s = effPort p s := by
  cases p with
  | some n => rfl
  | none =>
    show effPort (effPort none s) s = _
    cases hs : effPort none s with
    | some n => simp [effPort]
    | none => rw [hs]

end Hyperlink

namespace Hyperlink

/-- C2: `_resolve_dot_segments` is the single left-to-right pass the
spec describes — `"."` dropped, `".."` popping the previous kept
segment and silently ignored on an empty stack, a trailing empty
segment appended exactly when the input ended in `"."` or `".."` — and
it maps `[".", "a", "..", "b"]` to `["b"]`, `["a", ".."]` to `[""]`,
and `["..", "a"]` to `["a"]`. -/
theorem claim_C2_resolve_dot_segments :
    (∀ path : List Str, resolve_dot_segments path = resolveSpec path) ∧
    resolve_dot_segments [str ".", str "a", str "..", str "b"] = [str "b"] ∧
    resolve_dot_segments [str "a", str ".."] = [str ""] ∧
    resolve_dot_segments [str "..", str "a"] = [str "a"] := by
  refine ⟨fun path => ?_, by decide, by decide, by decide⟩
  simp only [resolve_dot_segments, resolveSpec, resolveLoop_eq_foldl]

/-- C5 (corrected): `parse_host` classifies `"192.168.1.1"` as IPv4,
`"[::1]"` as IPv6 with brackets stripped, and `"example.com"` as an
opaque name; but the bracketed non-IPv6 text `"[not-valid]"` contains
no colon, so it is returned as an opaque name rather than raising —
a parse error naming the unbracketed text is raised exactly for
bracketed, colon-containing hosts that fail IPv6 validation. -/
theorem claim_C5_parse_host :
    parse_host (some (str "192.168.1.1")) = .ok (some Family.v4, str "192.168.1.1") ∧
    parse_host (some (str "[::1]")) = .ok (some Family.v6, str "::1") ∧
    parse_host (some (str "example.com")) = .ok (none, str "example.com") ∧
    parse_host (some (str "[not-valid]")) = .ok (none, str "[not-valid]") ∧
    (∀ h : Str, ':' ∈ h → h.head? = some '[' → h.getLast? = some ']' →
      inetPtonV6 ((h.drop 1).dropLast) = false →
      parse_host (some h) = .error (.invalidIPv6 ((h.drop 1).dropLast))) := by
  refine ⟨by decide, by decide, by decide, by decide, ?_⟩
  intro h hc hh hl hv
  rw [List.drop_one] at hv ⊢
  have hne : h ≠ [] := by
    intro e
    rw [e] at hh
    exact absurd hh (by simp)
  simp only [parse_host]
  rw [if_neg hne, if_pos ⟨hc, hh, hl⟩, if_neg (by simp [List.drop_one, hv])]
  rw [List.drop_one]

/-- C5 counterexample: the claim says `parse_host("[not-valid]")`
raises a parse error; in fact it returns successfully, classifying the
text as an opaque host. -/
theorem claim_C5_counterexample :
    parse_host (some (str "[not-valid]")) = .ok (none, str "[not-valid]") := by
  decide

/-- C5 witness: a bracketed, colon-containing, non-IPv6 host does raise
the parse error naming the unbracketed text. -/
theorem claim_C5_witness :
    parse_host (some (str "[:zz]")) =
      .error (.invalidIPv6 (((str "[:zz]").drop 1).dropLast)) :=
  claim_C5_parse_host.2.2.2.2 (str "[:zz]") (by decide) (by decide)
    (by decide) (by decide)

/-- C9 (corrected): with no explicit port, the constructed port is the
scheme registry's default for the effective scheme — which is `http`
when a host is supplied without a scheme — irrespective of whether a
host is present; it is `None` only when that lookup has no default. -/
theorem claim_C9_port_default (scheme host : Option Str) (path : List Str)
    (query : List (Str × Option Str)) (fragment : Str) (rooted : Option Bool)
    (userinfo : Str) (family : Option Family) (un : Option Bool) (u : URL)
    (h : initURL scheme host path query fragment none rooted userinfo family un
      = .ok u) :
    u.port = effPort none (effScheme scheme host) := by
  rw [initURL_ok scheme host path query fragment none rooted userinfo family
    un u h]

/-- C9 counterexample: constructing with scheme `http`, no host and no
port yields port 80 even though the host is absent, where the claim
requires `None`. -/
theorem claim_C9_counterexample :
    (initURL (some (str "http")) none [] [] [] none none [] none none).map
      (fun u => (u.host, u.port)) = .ok (([] : Str), some 80) := by
  decide

/-- C9 witness: the port-default characterization applied to a concrete
host-and-scheme construction. -/
theorem claim_C9_witness :
    initURL (some (str "https")) (some (str "h")) [] [] [] none none [] none
      none = .ok ⟨str "https", str "h", [], [], [], some 443, true, [], none,
        some true⟩ ∧
    (⟨str "https", str "h", [], [], [], some 443, true, [], none,
      some true⟩ : URL).port =
      effPort none (effScheme (some (str "https")) (some (str "h"))) :=
  ⟨by decide,
    claim_C9_port_default (some (str "https")) (some (str "h")) [] [] [] none
      [] none none _ (by decide)⟩

/-- C10: `replace` never forwards `family` or `uses_netloc`: the result
always has `family = None` and `uses_netloc` recomputed from the scheme
registry alone; consequently a no-argument `replace` of the parse of
`http://[::1]/` is a different URL value that renders without the IPv6
brackets. -/
theorem claim_C10_replace_family :
    (∀ u w : URL, replaceURL u none none none none none none none none = .ok w →
      w.family = none ∧ w.uses_netloc = scheme_uses_netloc u.scheme none) ∧
    ((from_text (str "http://[::1]/")).bind
      (fun u => replaceURL u none none none none none none none none) ≠
      from_text (str "http://[::1]/")) ∧
    ((from_text (str "http://[::1]/")).bind
      (fun u => replaceURL u none none none none none none none none)).map
      (fun u => to_text u false) = .ok (str "http://::1/") ∧
    (from_text (str "http://[::1]/")).map (fun u => to_text u false) =
      .ok (str "http://[::1]/") := by
  refine ⟨?_, by decide, by decide, by decide⟩
  intro u w h
  rw [initURL_ok _ _ _ _ _ _ _ _ _ _ _ h]
  refine ⟨rfl, ?_⟩
  simp [effScheme]

/-- C10 witness: the `family`/`uses_netloc` reset applied to the
concrete parse of `http://[::1]/`. -/
theorem claim_C10_witness :
    replaceURL
      ⟨str "http", str "::1", [[]], [], [], some 80, true, [],
        some Family.v6, some true⟩ none none none none none none none none =
      .ok ⟨str "http", str "::1", [[]], [], [], some 80, true, [], none,
        some true⟩ ∧
    (⟨str "http", str "::1", [[]], [], [], some 80, true, [], none,
      some true⟩ : URL).family = none ∧
    (⟨str "http", str "::1", [[]], [], [], some 80, true, [], none,
      some true⟩ : URL).uses_netloc =
      scheme_uses_netloc (str "http") none :=
  ⟨by decide,
    claim_C10_replace_family.1
      ⟨str "http", str "::1", [[]], [], [], some 80, true, [],
        some Family.v6, some true⟩ _ (by decide)⟩

end Hyperlink

namespace Hyperlink

/-- C7: percent-decoding is total — input containing non-ASCII scalars
is returned unchanged; ASCII input has its escapes unescaped and the
bytes UTF-8-decoded, the original text being returned unchanged when
that decode fails; illustrated on concrete inputs, including a decode
failure (`%FF`) and an invalid escape (`%zz`). -/
theorem claim_C7_percent_decode :
    (∀ t : Str, t.all isAsciiC = false → percent_decode t = t) ∧
    (∀ t : Str, t.all isAsciiC = true →
      utf8Decode (urlunquote (t.map (·.toNat))) = some (percent_decode t) ∨
      (utf8Decode (urlunquote (t.map (·.toNat))) = none ∧
        percent_decode t = t)) ∧
    percent_decode (str "caf%C3%A9") = str "café" ∧
    percent_decode (str "caf%FF") = str "caf%FF" ∧
    percent_decode (str "café") = str "café" ∧
    percent_decode (str "%zz") = str "%zz" := by
  refine ⟨?_, ?_, by decide, by decide, by decide, by decide⟩
  · intro t ht
    have ha : asciiEncode? t = none := by
      simp only [asciiEncode?]
      rw [if_neg (by simp [ht])]
    simp only [percent_decode, ha]
  · intro t ht
    have ha : asciiEncode? t = some (t.map (·.toNat)) := by
      simp only [asciiEncode?]
      rw [if_pos ht]
    cases hd : utf8Decode (urlunquote (t.map (·.toNat))) with
    | none =>
      refine Or.inr ⟨rfl, ?_⟩
      simp only [percent_decode, ha, hd]
    | some r =>
      refine Or.inl ?_
      simp only [percent_decode, ha, hd]

/-- C7 witness: the decode characterization applied at concrete inputs
on both sides of the ASCII test. -/
theorem claim_C7_witness :
    percent_decode (str "é%41") = str "é%41" ∧
    (utf8Decode (urlunquote ((str "caf%C3%A9").map (·.toNat))) =
      some (percent_decode (str "caf%C3%A9")) ∨
     (utf8Decode (urlunquote ((str "caf%C3%A9").map (·.toNat))) = none ∧
      percent_decode (str "caf%C3%A9") = str "caf%C3%A9")) :=
  ⟨claim_C7_percent_decode.1 (str "é%41") (by decide),
   claim_C7_percent_decode.2.1 (str "caf%C3%A9") (by decide)⟩

end Hyperlink

namespace Hyperlink

/-- Partition at a separator that first occurs after `pre`. -/
theorem partitionC_append (sep : Char) (pre post : Str) (h : sep ∉ pre) :
    partitionC sep (pre ++ sep :: post) = (pre, true, post) := by
  induction pre with
  | nil => simp [partitionC]
  | cons c cs ih =>
    have hc : c ≠ sep := fun e => h (by simp [e])
    have hcs : sep ∉ cs := fun m => h (List.mem_cons_of_mem _ m)
    simp [partitionC, hc, ih hcs]

/-- The redaction prefix of a userinfo of the form `pre ++ ":" ++ pw`. -/
theorem upToFirstColon_append (pre pw : Str) (h : ':' ∉ pre) :
    upToFirstColon (pre ++ ':' :: pw) = pre ++ [':'] := by
  unfold upToFirstColon
  rw [partitionC_append ':' pre pw h]

/-- `authority` on a nonempty userinfo splits into the (possibly
redacted) userinfo, an `@`, and the authority of the same URL with the
userinfo emptied. -/
theorem authority_userinfo_split (sc h : Str) (p : List Str)
    (q : List (Str × Option Str)) (f : Str) (po : Option Int) (r : Bool)
    (fam : Option Family) (un : Option Bool) (ui : Str) (b : Bool)
    (hui : ui ≠ []) :
    authority ⟨sc, h, p, q, f, po, r, ui, fam, un⟩ b =
      (if ¬ b ∧ ':' ∈ ui then upToFirstColon ui else ui) ++ '@' ::
        authority ⟨sc, h, p, q, f, po, r, [], fam, un⟩ b := by
  simp only [authority]
  rw [if_pos hui, if_neg (show ¬(([] : Str) ≠ []) from fun hc => hc rfl)]

end Hyperlink

namespace Hyperlink

/-- C8: two URLs identical except for the userinfo text after its first
colon render identically under the default (secrets elided), and with
`include_secrets` the authority carries the full userinfo, password
included. -/
theorem claim_C8_password_redaction (sc h : Str) (p : List Str)
    (q : List (Str × Option Str)) (f : Str) (po : Option Int) (r : Bool)
    (fam : Option Family) (un : Option Bool) (pre p1 p2 : Str)
    (hpre : ':' ∉ pre) :
    to_text ⟨sc, h, p, q, f, po, r, pre ++ ':' :: p1, fam, un⟩ false =
      to_text ⟨sc, h, p, q, f, po, r, pre ++ ':' :: p2, fam, un⟩ false ∧
    authority ⟨sc, h, p, q, f, po, r, pre ++ ':' :: p1, fam, un⟩ true =
      (pre ++ ':' :: p1) ++ '@' ::
        authority ⟨sc, h, p, q, f, po, r, [], fam, un⟩ true := by
  constructor
  · have hA : ∀ pw : Str,
        authority ⟨sc, h, p, q, f, po, r, pre ++ ':' :: pw, fam, un⟩ false =
          (pre ++ [':']) ++ '@' ::
            authority ⟨sc, h, p, q, f, po, r, [], fam, un⟩ false := by
      intro pw
      rw [authority_userinfo_split sc h p q f po r fam un _ false (by simp)]
      rw [if_pos ⟨by simp, by simp⟩, upToFirstColon_append pre pw hpre]
    simp only [to_text, hA]
  · rw [authority_userinfo_split sc h p q f po r fam un _ true (by simp)]
    rw [if_neg (by simp)]

/-- C8 witness: the redaction equality and the opt-in inclusion at a
concrete pair of URLs differing only in the password. -/
theorem claim_C8_witness :
    to_text ⟨str "http", str "h", [[]], [], [], some 80, true,
      str "u" ++ ':' :: str "p", none, some true⟩ false =
      to_text ⟨str "http", str "h", [[]], [], [], some 80, true,
        str "u" ++ ':' :: str "q", none, some true⟩ false ∧
    authority ⟨str "http", str "h", [[]], [], [], some 80, true,
      str "u" ++ ':' :: str "p", none, some true⟩ true =
      (str "u" ++ ':' :: str "p") ++ '@' ::
        authority ⟨str "http", str "h", [[]], [], [], some 80, true, [],
          none, some true⟩ true :=
  claim_C8_password_redaction (str "http") (str "h") [[]] [] [] (some 80)
    true none (some true) (str "u") (str "p") (str "q") (by decide)

end Hyperlink

namespace Hyperlink

/-- Decomposition of a filter around the first index satisfying the
dropped predicate: everything before the first hit is kept verbatim. -/
theorem findIdx_filter_decomp {α : Type} (p : α → Bool) (l : List α) :
    ∀ i : Nat, l.findIdx? p = some i →
      i < l.length ∧
      l.filter (fun x => !(p x)) =
        l.take i ++ (l.drop (i + 1)).filter (fun x => !(p x)) := by
  induction l with
  | nil => intro i h; simp at h
  | cons a t ih =>
    intro i h
    rw [List.findIdx?_cons] at h
    by_cases hpa : p a
    · rw [if_pos hpa] at h
      obtain rfl : (0 : Nat) = i := Option.some.inj h
      refine ⟨by simp, ?_⟩
      rw [@List.filter_cons_of_neg _ (fun x => !(p x)) a t (by simp [hpa])]
      simp
    · rw [if_neg hpa, List.findIdx?_succ] at h
      cases hj : t.findIdx? p with
      | none => rw [hj] at h; simp at h
      | some j =>
        rw [hj] at h
        obtain rfl : j + 1 = i := Option.some.inj h
        obtain ⟨hlt, heq⟩ := ih j hj
        refine ⟨by simpa using Nat.succ_lt_succ hlt, ?_⟩
        rw [@List.filter_cons_of_pos _ (fun x => !(p x)) a t (by simp [hpa]),
          heq, List.take_succ_cons, List.drop_succ_cons]
        simp

/-- A filter keeping the complement of an absent predicate keeps
everything. -/
theorem filter_of_findIdx_none {α : Type} (p : α → Bool) (l : List α)
    (h : l.findIdx? p = none) : l.filter (fun x => !(p x)) = l := by
  rw [List.filter_eq_self]
  intro a ha
  simp [List.findIdx?_eq_none_iff.mp h a ha]

end Hyperlink

namespace Hyperlink

/-- C4 (corrected): `set(name, value)` yields a query containing the
new pair exactly once; when the name occurs, the new pair sits at the
position of the first occurrence, the earlier pairs kept verbatim and
the later occurrences dropped; when the name is absent, the new pair is
spliced in before the last remaining pair (Python `q[-1:-1]`), not
appended at the end. -/
theorem claim_C4_set (u : URL) (name : Str) (value : Option Str) (w : URL)
    (h : setQ u name value = .ok w) :
    (∀ i, u.query.findIdx? (fun kv => kv.1 == name) = some i →
      w.query = u.query.take i ++ (name, value) ::
        ((u.query.drop (i + 1)).filter fun kv => !(kv.1 == name))) ∧
    (u.query.findIdx? (fun kv => kv.1 == name) = none →
      w.query = u.query.take (u.query.length - 1) ++ (name, value) ::
        u.query.drop (u.query.length - 1)) := by
  unfold setQ replaceURL at h
  have hw := initURL_ok _ _ _ _ _ _ _ _ _ _ _ h
  constructor
  · intro i hfind
    obtain ⟨hlt, heq⟩ := findIdx_filter_decomp _ _ i hfind
    rw [hw]
    show pySliceInsert _ _ _ = _
    rw [hfind]
    simp only [pySliceInsert]
    rw [if_neg (by omega)]
    have htl : (u.query.take i).length = i :=
      List.length_take_of_le (by omega)
    have hmin : min (Int.toNat i) (u.query.filter
        (fun kv => !(kv.1 == name))).length = i := by
      rw [heq]
      simp only [List.length_append, htl, Int.toNat_ofNat]
      omega
    rw [hmin, heq, List.take_left' htl, List.drop_left' htl]
    simp
  · intro hfind
    rw [hw]
    show pySliceInsert _ _ _ = _
    rw [hfind, filter_of_findIdx_none _ _ hfind]
    simp only [pySliceInsert]
    rw [if_pos (by omega)]
    have : ((-1 : Int) + u.query.length).toNat = u.query.length - 1 := by
      omega
    rw [this]
    simp

/-- C4 counterexample: on the parse of `?a=1&b=2`, setting the absent
name `c` inserts the new pair before the last pair instead of appending
it, contradicting the claim's append-at-end clause. -/
theorem claim_C4_counterexample :
    ((from_text (str "?a=1&b=2")).bind
      (fun u => setQ u (str "c") (some (str "x")))).map URL.query =
      .ok [(str "a", some (str "1")), (str "c", some (str "x")),
        (str "b", some (str "2"))] ∧
    ((from_text (str "?a=1&b=2")).bind
      (fun u => setQ u (str "c") (some (str "x")))).map URL.query ≠
      .ok [(str "a", some (str "1")), (str "b", some (str "2")),
        (str "c", some (str "x"))] := ⟨by decide, by decide⟩

/-- C4 witness: the first-occurrence replacement applied to the query
of `?a=1&b=2&a=3`, reproducing the claim's own example, whose rendered
query is `a=9&b=2`. -/
theorem claim_C4_witness :
    setQ ⟨[], [], [], [(str "a", some (str "1")), (str "b", some (str "2")),
        (str "a", some (str "3"))], [], none, false, [], none, some false⟩
      (str "a") (some (str "9")) =
      .ok ⟨[], [], [], [(str "a", some (str "9")), (str "b", some (str "2"))],
        [], none, false, [], none, some false⟩ ∧
    (⟨[], [], [], [(str "a", some (str "9")), (str "b", some (str "2"))],
        [], none, false, [], none, some false⟩ : URL).query =
      [(str "a", some (str "1")), (str "b", some (str "2")),
        (str "a", some (str "3"))].take 0 ++ (str "a", some (str "9")) ::
        (([(str "a", some (str "1")), (str "b", some (str "2")),
          (str "a", some (str "3"))].drop 1).filter
          fun kv => !(kv.1 == str "a")) ∧
    to_text ⟨[], [], [], [(str "a", some (str "9")), (str "b", some (str "2"))],
        [], none, false, [], none, some false⟩ false = str "?a=9&b=2" :=
  ⟨by decide,
    (claim_C4_set
      ⟨[], [], [], [(str "a", some (str "1")), (str "b", some (str "2")),
        (str "a", some (str "3"))], [], none, false, [], none, some false⟩
      (str "a") (some (str "9"))
      ⟨[], [], [], [(str "a", some (str "9")), (str "b", some (str "2"))],
        [], none, false, [], none, some false⟩ (by decide)).1 0 (by decide),
    by decide⟩

end Hyperlink

namespace Hyperlink

/-- The part before the first separator contains no separator. -/
theorem partitionC_no_sep (sep : Char) :
    ∀ (s a : Str) (fl : Bool) (b : Str),
      partitionC sep s = (a, fl, b) → sep ∉ a := by
  intro s
  induction s with
  | nil =>
    intro a fl b h
    simp only [partitionC] at h
    obtain ⟨rfl, -⟩ := Prod.mk.inj h
    simp
  | cons c cs ih =>
    intro a fl b h
    simp only [partitionC] at h
    by_cases hc : c = sep
    · rw [if_pos hc] at h
      obtain ⟨rfl, -⟩ := Prod.mk.inj h
      simp
    · rw [if_neg hc] at h
      rcases hp : partitionC sep cs with ⟨pre, found, post⟩
      rw [hp] at h
      obtain ⟨rfl, -⟩ := Prod.mk.inj h
      intro hmem
      rcases List.mem_cons.mp hmem with rfl | hmem
      · exact hc rfl
      · exact ih pre found post hp hmem

/-- A host free of colons is always classified without error: IPv4 when
the dotted-quad grammar accepts it, an opaque name otherwise. -/
theorem parse_host_no_colon (h : Str) (hc : ':' ∉ h) :
    parse_host (some h) = .ok
      ((if h ≠ [] ∧ inetPtonV4 h then some Family.v4 else none), h) := by
  by_cases he : h = []
  · subst he
    simp [parse_host]
  · simp only [parse_host]
    rw [if_neg he, if_neg (fun hcond => hc hcond.1)]
    by_cases hv : inetPtonV4 h = true
    · rw [if_pos hv, if_pos ⟨he, hv⟩]
    · rw [if_neg hv, if_neg (fun k => hv k.2)]

/-- The host/port step under a found colon with no `]` in the
remainder: a rejected port-string is a parse error. -/
theorem hostPortOf_split_none (hi hN ps : Str)
    (hsplit : partitionC ':' hi = (hN, true, ps)) (hbr : ']' ∉ ps)
    (hn : pyInt? ps = none) :
    hostPortOf hi =
      if ps = [] then .error .portEmptyErr else .error (.portNotInt ps) := by
  have hne : hi ≠ [] := by
    intro e
    rw [e] at hsplit
    simp [partitionC] at hsplit
  simp only [hostPortOf]
  rw [if_pos hne, hsplit]
  simp only []
  rw [if_pos trivial, if_neg hbr, hn]

/-- The host/port step under a found colon with no `]` in the
remainder: an accepted port-string yields the host and that port. -/
theorem hostPortOf_split_some (hi hN ps : Str) (n : Int)
    (hsplit : partitionC ':' hi = (hN, true, ps)) (hbr : ']' ∉ ps)
    (hn : pyInt? ps = some n) :
    hostPortOf hi = .ok (some hN, some n) := by
  have hne : hi ≠ [] := by
    intro e
    rw [e] at hsplit
    simp [partitionC] at hsplit
  simp only [hostPortOf]
  rw [if_pos hne, hsplit]
  simp only []
  rw [if_pos trivial, if_neg hbr, hn]

end Hyperlink

namespace Hyperlink

/-- C6 (corrected): when the host-info splits at a first colon whose
remainder contains no `]`, parsing fails with a parse error exactly
when Python `int` rejects the port-string (the empty string having its
own error); when `int` accepts it — which includes negative and signed
forms, not only non-negative integers — the parse, if it succeeds,
carries that integer as the port. -/
theorem claim_C6_port (s hN ps : Str)
    (hsplit : partitionC ':' (hostinfoOf s) = (hN, true, ps))
    (hbr : ']' ∉ ps) :
    (pyInt? ps = none →
      from_text s =
        .error (if ps = [] then Err.portEmptyErr else Err.portNotInt ps)) ∧
    (∀ (n : Int) (u : URL), pyInt? ps = some n → from_text s = .ok u →
      u.port = some n) := by
  constructor
  · intro hn
    have hhp := hostPortOf_split_none _ _ _ hsplit hbr hn
    simp only [hostinfoOf] at hhp
    by_cases hps : ps = []
    · rw [if_pos hps] at hhp ⊢
      simp only [from_text, hhp]
    · rw [if_neg hps] at hhp ⊢
      simp only [from_text, hhp]
  · intro n u hn hft
    have hhp := hostPortOf_split_some _ _ _ _ hsplit hbr hn
    simp only [hostinfoOf] at hhp
    have hcolon : ':' ∉ hN := partitionC_no_sep ':' _ _ _ _ hsplit
    simp only [from_text, hhp, parse_host_no_colon hN hcolon] at hft
    rw [initURL_ok _ _ _ _ _ _ _ _ _ _ _ hft]
    simp [effPort]

/-- C6 counterexample: the port-string `-1` is not a non-negative
integer, yet `//h:-1` parses successfully, with port `-1`. -/
theorem claim_C6_counterexample :
    (from_text (str "//h:-1")).map URL.port = .ok (some (-1)) := by decide

/-- C6 witness: the port characterization applied to a malformed port
(`//h:x` fails naming `x`) and to a parsed port (`//h:80` carries 80). -/
theorem claim_C6_witness :
    from_text (str "//h:x") = .error (.portNotInt (str "x")) ∧
    (⟨[], str "h", [], [], [], some 80, true, [], none,
      some false⟩ : URL).port = some 80 := by
  constructor
  · have h1 := (claim_C6_port (str "//h:x") (str "h") (str "x") (by decide)
      (by decide)).1 (by decide)
    rw [if_neg (by decide)] at h1
    exact h1
  · exact (claim_C6_port (str "//h:80") (str "h") (str "80") (by decide)
      (by decide)).2 80 _ (by decide) (by decide)

end Hyperlink

namespace Hyperlink

/-- The relative branch of `click` always passes its merged path
through dot-segment resolution. -/
theorem clickRel_path_resolved (u clicked url : URL)
    (h : clickRel u clicked = .ok url) :
    ∃ p : List Str, url.path = resolve_dot_segments p := by
  unfold clickRel replaceURL at h
  split at h
  · exact absurd h (by simp)
  · have h2 := initURL_ok _ _ _ _ _ _ _ _ _ _ _ h
    exact ⟨_, by rw [h2]; rfl⟩

end Hyperlink

namespace Hyperlink

/-- C3 (corrected): a successful `click` has a dot-free path whenever
the reference is empty or parses to a non-absolute URL; an absolute
reference is returned exactly as parsed, without dot-segment
resolution, and may retain `.`/`..` segments. -/
theorem claim_C3_click_resolved (base : URL) (href : Str) (url : URL)
    (hc : click base href = .ok url)
    (hrel : href = [] ∨ ∀ c : URL, from_text href = .ok c →
      absolute c = false) :
    ∀ s ∈ url.path, s ≠ str "." ∧ s ≠ str ".." := by
  intro s hs
  have hres : ∃ p : List Str, url.path = resolve_dot_segments p := by
    by_cases hh : href = []
    · subst hh
      simp only [click, if_neg (fun k : ([] : Str) ≠ [] => k rfl)] at hc
      rw [if_neg (fun k => k.1 rfl)] at hc
      exact clickRel_path_resolved _ _ _ hc
    · have hfa : ∀ c : URL, from_text href = .ok c → absolute c = false := by
        rcases hrel with rfl | hfa
        · exact absurd rfl hh
        · exact hfa
      simp only [click, if_pos hh] at hc
      cases hft : from_text href with
      | error e =>
        rw [hft] at hc
        exact absurd hc (by simp)
      | ok c =>
        rw [hft] at hc
        simp only [] at hc
        rw [if_neg (fun k => by
          have := hfa c hft
          rw [this] at k
          exact absurd k.2 (by simp))] at hc
        exact clickRel_path_resolved _ _ _ hc
  obtain ⟨p, hp⟩ := hres
  rw [hp] at hs
  exact resolve_dot_segments_no_dots p s hs

/-- C3 counterexample: clicking the absolute reference `http://h/./x`
from `http://a/` returns it as parsed, with a `.` segment surviving in
the path. -/
theorem claim_C3_counterexample :
    ((from_text (str "http://a/")).bind
      (fun u => click u (str "http://h/./x"))).map URL.path =
      .ok [str ".", str "x"] ∧
    (str ".") ∈ [str ".", str "x"] := ⟨by decide, by decide⟩

/-- C3 witness: the dot-free property applied to the concrete
resolution of `../d/./e` against `http://localhost/a/b/c/`. -/
theorem claim_C3_witness :
    click ⟨str "http", str "localhost",
        [str "a", str "b", str "c", []], [], [], some 80, true, [], none,
        some true⟩ (str "../d/./e") =
      .ok ⟨str "http", str "localhost", [str "a", str "b", str "d", str "e"],
        [], [], some 80, true, [], none, some true⟩ ∧
    ∀ s ∈ (⟨str "http", str "localhost",
        [str "a", str "b", str "d", str "e"], [], [], some 80, true, [], none,
        some true⟩ : URL).path, s ≠ str "." ∧ s ≠ str ".." :=
  ⟨by decide,
    claim_C3_click_resolved
      ⟨str "http", str "localhost", [str "a", str "b", str "c", []], [], [],
        some 80, true, [], none, some true⟩
      (str "../d/./e")
      ⟨str "http", str "localhost", [str "a", str "b", str "d", str "e"],
        [], [], some 80, true, [], none, some true⟩
      (by decide)
      (Or.inr (fun c hcc => by
        rw [(by decide : from_text (str "../d/./e") = .ok
          ⟨[], [], [str "..", str "d", str ".", str "e"], [], [], none, false,
            [], none, some false⟩)] at hcc
        rw [← Except.ok.inj hcc]
        decide))⟩

end Hyperlink

namespace Hyperlink

/-- Membership and the boolean `contains` agree on character lists. -/
theorem contains_iff_mem (l : List Char) (c : Char) :
    l.contains c = true ↔ c ∈ l := by
  simp [List.contains]

/-- Every value of `hexUpper` lies in the hex-digit alphabet. -/
theorem hexUpper_mem (n : Nat) : hexUpper n ∈ "0123456789ABCDEF".data := by
  unfold hexUpper
  rcases Nat.lt_or_ge n "0123456789ABCDEF".data.length with hlt | hge
  · rw [List.getD_eq_getElem _ _ hlt]
    exact List.getElem_mem hlt
  · rw [List.getD_eq_default _ _ hge]
    decide

/-- Output characters of one quote-map entry stay inside a safe set
that contains the percent sign and the hex digits. -/
theorem quoteByte_mem (safe : List Char) (hp : '%' ∈ safe)
    (hhex : ∀ c ∈ "0123456789ABCDEF".data, c ∈ safe) (b : Nat) :
    ∀ c ∈ quoteByte safe b, c ∈ safe := by
  intro c hc
  simp only [quoteByte] at hc
  split at hc
  · next hcond =>
    rcases List.mem_singleton.mp hc with rfl
    exact (contains_iff_mem safe _).mp hcond
  · rcases List.mem_cons.mp hc with rfl | hc
    · exact hp
    · rcases List.mem_cons.mp hc with rfl | hc
      · exact hhex _ (hexUpper_mem _)
      · rcases List.mem_singleton.mp hc with rfl
        exact hhex _ (hexUpper_mem _)

/-- Every character of a maximally quoted component lies in the safe
set, provided the set contains `%` and the hex digits. -/
theorem encodeMax_mem (safe : List Char) (hp : '%' ∈ safe)
    (hhex : ∀ c ∈ "0123456789ABCDEF".data, c ∈ safe) (t : Str) :
    ∀ c ∈ encodeMax safe t, c ∈ safe := by
  intro c hc
  unfold encodeMax at hc
  obtain ⟨l, hl, hcl⟩ := List.mem_flatten.mp hc
  obtain ⟨b, -, rfl⟩ := List.mem_map.mp hl
  exact quoteByte_mem safe hp hhex b c hcl

/-- UTF-8 encoding of ASCII text is the byte sequence of its scalar
values. -/
theorem utf8Encode_ascii (t : Str) (h : ∀ c ∈ t, c.toNat < 128) :
    utf8Encode t = t.map (·.toNat) := by
  induction t with
  | nil => rfl
  | cons c rest ih =>
    have hc : c.toNat < 128 := h c (by simp)
    have hrest := ih fun x hx => h x (List.mem_cons_of_mem _ hx)
    simp only [utf8Encode, List.map_cons, List.flatten_cons] at *
    rw [hrest]
    unfold utf8EncodeChar
    rw [if_pos (by omega)]
    rfl

/-- Maximal quoting of text consisting only of safe ASCII characters is
the identity. -/
theorem encodeMax_of_safe (safe : List Char)
    (hascii : ∀ c ∈ safe, c.toNat < 128) (t : Str)
    (ht : ∀ c ∈ t, c ∈ safe) : encodeMax safe t = t := by
  unfold encodeMax nfc
  rw [utf8Encode_ascii t fun c hc => hascii c (ht c hc)]
  induction t with
  | nil => rfl
  | cons c rest ih =>
    have hc : c ∈ safe := ht c (by simp)
    have ihr := ih fun x hx => ht x (List.mem_cons_of_mem _ hx)
    simp only [List.map_cons, List.flatten_cons]
    rw [ihr]
    unfold quoteByte
    rw [Char.ofNat_toNat, if_pos ((contains_iff_mem safe c).mpr hc)]
    rfl

/-- Maximal quoting is idempotent for a safe set that is ASCII and
closed over `%` and the hex digits. -/
theorem encodeMax_idem (safe : List Char) (hp : '%' ∈ safe)
    (hhex : ∀ c ∈ "0123456789ABCDEF".data, c ∈ safe)
    (hascii : ∀ c ∈ safe, c.toNat < 128) (t : Str) :
    encodeMax safe (encodeMax safe t) = encodeMax safe t :=
  encodeMax_of_safe safe hascii _ (encodeMax_mem safe hp hhex t)

/-- Joining a one-split recovers the original text. -/
theorem joinC_splitFirst (sep : Char) (s : Str) :
    joinC sep (splitFirst sep s) = s := by
  induction s with
  | nil => rfl
  | cons c rest ih =>
    by_cases hc : c = sep
    · subst hc
      simp [splitFirst, joinC]
    · simp only [splitFirst, if_neg hc]
      cases hsp : splitFirst sep rest with
      | nil =>
        rw [hsp] at ih
        simp only [joinC] at ih
        simp [joinC, ih]
      | cons p ps =>
        rw [hsp] at ih
        cases ps with
        | nil => simp only [joinC] at ih ⊢; rw [ih]
        | cons q qs =>
          simp only [joinC] at ih ⊢
          rw [List.cons_append, ih]

/-- A map that fixes every element of a list fixes the list. -/
theorem map_eq_self_of {α : Type} (f : α → α) (l : List α)
    (h : ∀ x ∈ l, f x = x) : l.map f = l := by
  induction l with
  | nil => rfl
  | cons a t ih =>
    rw [List.map_cons, h a (by simp), ih fun x hx => h x (List.mem_cons_of_mem _ hx)]

/-- The modelled IDNA encoder returns its input on success. -/
theorem idnaEncode_ok_eq (h h2 : Str) (he : idnaEncode h = .ok h2) :
    h2 = h := by
  by_cases hnil : h = []
  · subst hnil
    simp only [idnaEncode, if_pos rfl] at he
    exact (Except.ok.inj he).symm
  · simp only [idnaEncode, if_neg hnil] at he
    split at he
    · exact (Except.ok.inj he).symm
    · exact absurd he (by simp)

end Hyperlink

namespace Hyperlink

/-- A supplied scheme is never rewritten by the constructor's
host-based fallback. -/
theorem effScheme_some (a : Str) (b : Option Str) :
    effScheme (some a) b = some a := by
  unfold effScheme
  rw [if_neg (fun k => Option.noConfusion k.2)]

/-- Evaluation of a successful construction. -/
theorem initURL_eval (scheme host : Option Str) (path : List Str)
    (query : List (Str × Option Str)) (fragment : Str) (port : Option Int)
    (rooted : Option Bool) (userinfo : Str) (family : Option Family)
    (un : Option Bool)
    (hOK : ¬ ((effScheme scheme host).getD [] ≠ [] ∧
      ¬ ((effScheme scheme host).getD []).all schemeCharOK)) :
    initURL scheme host path query fragment port rooted userinfo family un =
      .ok ⟨(effScheme scheme host).getD [], host.getD [], path, query,
        fragment, effPort port (effScheme scheme host),
        rooted.getD (host.getD [] ≠ []), userinfo, family,
        scheme_uses_netloc ((effScheme scheme host).getD []) un⟩ := by
  have hp : (if host.getD [] ≠ [] ∧ query ≠ [] ∧ path = []
      then ([] : List Str) else path) = path := by
    split
    · next hc => exact hc.2.2.symm
    · rfl
  simp only [initURL, hp]
  rw [if_neg hOK]

/-- Re-running `replace` with no arguments on any URL that `replace`
itself produced returns that URL unchanged. -/
theorem replace_refix (u0 : URL) (sc ho : Option Str)
    (pa : Option (List Str)) (qu : Option (List (Str × Option Str)))
    (fr : Option Str) (po : Option (Option Int)) (ro : Option Bool)
    (ui : Option Str) (v : URL)
    (h : replaceURL u0 sc ho pa qu fr po ro ui = .ok v) :
    replaceURL v none none none none none none none none = .ok v := by
  unfold replaceURL at h ⊢
  have hv := initURL_ok _ _ _ _ _ _ _ _ _ _ _ h
  have hOK := initURL_ok_schemeOK _ _ _ _ _ _ _ _ _ _ _ h
  have hOK2 : ¬ ((effScheme (some ((none : Option Str).getD v.scheme))
        (some ((none : Option Str).getD v.host))).getD [] ≠ [] ∧
      ¬ ((effScheme (some ((none : Option Str).getD v.scheme))
        (some ((none : Option Str).getD v.host))).getD []).all
          schemeCharOK) := by
    simp only [Option.getD_none, effScheme_some, Option.getD_some]
    rw [hv]
    exact hOK
  rw [initURL_eval _ _ _ _ _ _ _ _ _ _ hOK2]
  simp only [Option.getD_none, effScheme_some, Option.getD_some]
  rw [hv]
  simp only [effScheme_some, Option.getD_some, effPort_idem]

end Hyperlink


namespace Hyperlink

/-- Re-running `replace` on a `replace` output, passing the output's
own host, path, query, fragment and userinfo explicitly, returns the
output unchanged. -/
theorem replace_refill (u0 : URL) (sc ho : Option Str)
    (pa : Option (List Str)) (qu : Option (List (Str × Option Str)))
    (fr : Option Str) (po : Option (Option Int)) (ro : Option Bool)
    (ui : Option Str) (v : URL)
    (h : replaceURL u0 sc ho pa qu fr po ro ui = .ok v) :
    replaceURL v none (some v.host) (some v.path) (some v.query)
      (some v.fragment) none none (some v.userinfo) = .ok v := by
  unfold replaceURL at h ⊢
  have hv := initURL_ok _ _ _ _ _ _ _ _ _ _ _ h
  have hOK := initURL_ok_schemeOK _ _ _ _ _ _ _ _ _ _ _ h
  have hOK2 : ¬ ((effScheme (some ((none : Option Str).getD v.scheme))
        (some ((some v.host).getD v.host))).getD [] ≠ [] ∧
      ¬ ((effScheme (some ((none : Option Str).getD v.scheme))
        (some ((some v.host).getD v.host))).getD []).all schemeCharOK) := by
    simp only [Option.getD_none, effScheme_some, Option.getD_some]
    rw [hv]
    exact hOK
  rw [initURL_eval _ _ _ _ _ _ _ _ _ _ hOK2]
  simp only [Option.getD_none, effScheme_some, Option.getD_some]
  rw [hv]
  simp only [effScheme_some, Option.getD_some, effPort_idem]

end Hyperlink

namespace Hyperlink

/-- C1 (corrected): `to_uri` is idempotent whenever every colon-part of
the userinfo consists of userinfo-safe characters — in general the
userinfo quote map lacks `%`, so a second pass re-encodes the escapes
the first pass introduced there; path, query, fragment and host are
always stable.  `to_iri` is idempotent whenever every decoded component
is itself stable under a further percent-decode. -/
theorem claim_C1_conversion_idempotence :
    (∀ u v : URL,
      (∀ part ∈ splitFirst ':' u.userinfo, ∀ c ∈ part, c ∈ USERINFO_SAFE) →
      to_uri u = .ok v → to_uri v = .ok v) ∧
    (∀ u v : URL, to_iri u = .ok v →
      (∀ part ∈ splitFirst ':' v.userinfo, percent_decode part = part) →
      (∀ seg ∈ v.path, percent_decode seg = seg) →
      (∀ kv ∈ v.query, percent_decode kv.1 = kv.1 ∧
        ∀ x, kv.2 = some x → percent_decode x = x) →
      percent_decode v.fragment = v.fragment →
      to_iri v = .ok v) := by
  have hpP : '%' ∈ PATH_SAFE := by decide
  have hhP : ∀ c ∈ "0123456789ABCDEF".data, c ∈ PATH_SAFE := by decide
  have haP : ∀ c ∈ PATH_SAFE, c.toNat < 128 := by decide
  have hpQ : '%' ∈ QUERY_SAFE := by decide
  have hhQ : ∀ c ∈ "0123456789ABCDEF".data, c ∈ QUERY_SAFE := by decide
  have haQ : ∀ c ∈ QUERY_SAFE, c.toNat < 128 := by decide
  have hpF : '%' ∈ FRAGMENT_SAFE := by decide
  have hhF : ∀ c ∈ "0123456789ABCDEF".data, c ∈ FRAGMENT_SAFE := by decide
  have haF : ∀ c ∈ FRAGMENT_SAFE, c.toNat < 128 := by decide
  have haU : ∀ c ∈ USERINFO_SAFE, c.toNat < 128 := by decide
  have hcompP : encodeMax PATH_SAFE ∘ encodeMax PATH_SAFE =
      encodeMax PATH_SAFE := funext (encodeMax_idem PATH_SAFE hpP hhP haP)
  constructor
  · intro u v H h
    unfold to_uri at h
    cases hid : idnaEncode u.host with
    | error e =>
      rw [hid] at h
      exact absurd h (by simp)
    | ok hostA =>
      rw [hid] at h
      obtain rfl : hostA = u.host := idnaEncode_ok_eq _ _ hid
      have h2 : replaceURL u none (some u.host)
          (some (u.path.map (encodeMax PATH_SAFE)))
          (some (u.query.map fun kv =>
            (encodeMax QUERY_SAFE kv.1, kv.2.map (encodeMax QUERY_SAFE))))
          (some (encodeMax FRAGMENT_SAFE u.fragment)) none none
          (some (joinC ':'
            ((splitFirst ':' u.userinfo).map (encodeMax USERINFO_SAFE)))) =
          .ok v := h
      have h3 := h2
      unfold replaceURL at h3
      have hv := initURL_ok _ _ _ _ _ _ _ _ _ _ _ h3
      have hvh : v.host = u.host := by rw [hv]; rfl
      have huE : joinC ':'
          ((splitFirst ':' u.userinfo).map (encodeMax USERINFO_SAFE)) =
          u.userinfo := by
        rw [map_eq_self_of _ _
          (fun p hp => encodeMax_of_safe USERINFO_SAFE haU p (H p hp)),
          joinC_splitFirst]
      have hvu : v.userinfo = u.userinfo := by
        rw [hv]
        exact huE
      unfold to_uri
      rw [hvh, hid]
      show replaceURL v none (some u.host)
          (some (v.path.map (encodeMax PATH_SAFE)))
          (some (v.query.map fun kv =>
            (encodeMax QUERY_SAFE kv.1, kv.2.map (encodeMax QUERY_SAFE))))
          (some (encodeMax FRAGMENT_SAFE v.fragment)) none none
          (some (joinC ':'
            ((splitFirst ':' v.userinfo).map (encodeMax USERINFO_SAFE)))) =
          .ok v
      have hstepP : v.path = u.path.map (encodeMax PATH_SAFE) := by
        rw [hv]
        rfl
      have hpath : v.path.map (encodeMax PATH_SAFE) = v.path := by
        rw [hstepP, List.map_map, hcompP]
      have hstepQ : v.query = u.query.map fun kv =>
          (encodeMax QUERY_SAFE kv.1, kv.2.map (encodeMax QUERY_SAFE)) := by
        rw [hv]
        rfl
      have hquery : (v.query.map fun kv =>
          (encodeMax QUERY_SAFE kv.1, kv.2.map (encodeMax QUERY_SAFE))) =
          v.query := by
        rw [hstepQ, List.map_map]
        apply List.map_congr_left
        intro kv _
        simp only [Function.comp]
        refine Prod.ext ?_ ?_
        · exact encodeMax_idem QUERY_SAFE hpQ hhQ haQ kv.1
        · cases kv.2 with
          | none => rfl
          | some x =>
            simp [encodeMax_idem QUERY_SAFE hpQ hhQ haQ x]
      have hstepF : v.fragment = encodeMax FRAGMENT_SAFE u.fragment := by
        rw [hv]
        rfl
      have hfrag : encodeMax FRAGMENT_SAFE v.fragment = v.fragment := by
        rw [hstepF, encodeMax_idem FRAGMENT_SAFE hpF hhF haF]
      have huser : joinC ':'
          ((splitFirst ':' v.userinfo).map (encodeMax USERINFO_SAFE)) =
          v.userinfo := by
        rw [hvu, huE]
      rw [hpath, hquery, hfrag, huser, ← hvh]
      exact replace_refill u none (some u.host) _ _ _ _ _ _ v h2
  · intro u v h H1 H2 H3 H4
    have h2 : replaceURL u none
        (some (if u.host.all isAsciiC then idnaDecode u.host else u.host))
        (some (u.path.map percent_decode))
        (some (u.query.map fun kv =>
          (percent_decode kv.1, kv.2.map percent_decode)))
        (some (percent_decode u.fragment)) none none
        (some (joinC ':' ((splitFirst ':' u.userinfo).map percent_decode))) =
        .ok v := h
    show replaceURL v none
        (some (if v.host.all isAsciiC then idnaDecode v.host else v.host))
        (some (v.path.map percent_decode))
        (some (v.query.map fun kv =>
          (percent_decode kv.1, kv.2.map percent_decode)))
        (some (percent_decode v.fragment)) none none
        (some (joinC ':' ((splitFirst ':' v.userinfo).map percent_decode))) =
        .ok v
    have hhost : (if v.host.all isAsciiC then idnaDecode v.host else v.host) =
        v.host := by
      unfold idnaDecode
      split <;> rfl
    have hpath : v.path.map percent_decode = v.path := map_eq_self_of _ _ H2
    have hquery : (v.query.map fun kv =>
        (percent_decode kv.1, kv.2.map percent_decode)) = v.query := by
      apply map_eq_self_of
      intro kv hkv
      obtain ⟨hk, hval⟩ := H3 kv hkv
      refine Prod.ext ?_ ?_
      · exact hk
      · cases hv2 : kv.2 with
        | none => rfl
        | some x =>
          simp [hval x hv2]
    have huser : joinC ':' ((splitFirst ':' v.userinfo).map percent_decode) =
        v.userinfo := by
      rw [map_eq_self_of _ _ H1, joinC_splitFirst]
    rw [hhost, hpath, hquery, H4, huser]
    exact replace_refill u none _ _ _ _ _ _ _ v h2

end Hyperlink

namespace Hyperlink

/-- C1 counterexample: for the URL with userinfo `u p`, a second
`to_uri` re-encodes the `%` introduced by the first (`u%20p` becomes
`u%2520p`), so `to_uri` is not idempotent on every URL. -/
theorem claim_C1_counterexample :
    (to_uri ⟨str "http", str "h", [], [], [], some 80, true, str "u p",
      none, some true⟩).bind to_uri ≠
      to_uri ⟨str "http", str "h", [], [], [], some 80, true, str "u p",
        none, some true⟩ ∧
    (to_uri ⟨str "http", str "h", [], [], [], some 80, true, str "u p",
      none, some true⟩).map URL.userinfo = .ok (str "u%20p") ∧
    ((to_uri ⟨str "http", str "h", [], [], [], some 80, true, str "u p",
      none, some true⟩).bind to_uri).map URL.userinfo =
      .ok (str "u%2520p") := ⟨by decide, by decide, by decide⟩

/-- C1 witness: both conditional idempotences applied at concrete URLs
— a safe-userinfo URL whose second `to_uri` is a no-op, and a
decode-stable URL whose second `to_iri` is a no-op. -/
theorem claim_C1_witness :
    to_uri ⟨str "http", str "h", [str "a%20b"], [], [], some 80, true,
      str "u:p", none, some true⟩ =
      .ok ⟨str "http", str "h", [str "a%20b"], [], [], some 80, true,
        str "u:p", none, some true⟩ ∧
    to_iri ⟨[], [], [str "café"], [], [], none, false, [], none,
      some false⟩ =
      .ok ⟨[], [], [str "café"], [], [], none, false, [], none,
        some false⟩ :=
  ⟨claim_C1_conversion_idempotence.1
      ⟨str "http", str "h", [str "a b"], [], [], some 80, true, str "u:p",
        none, some true⟩
      ⟨str "http", str "h", [str "a%20b"], [], [], some 80, true, str "u:p",
        none, some true⟩
      (by decide) (by decide),
    claim_C1_conversion_idempotence.2
      ⟨[], [], [str "caf%C3%A9"], [], [], none, false, [], none, some false⟩
      ⟨[], [], [str "café"], [], [], none, false, [], none, some false⟩
      (by decide) (by decide) (by decide) (by decide) (by decide)⟩

end Hyperlink
